import Mathlib

/-!
# execbeat: the scheduled-command executor and its event records

A shallow embedding of `beater/executor.go` and `beater/execevent.go`.

* Go strings are modelled by Lean strings (sequences of code points; a Go
  string that is not valid UTF-8 has no counterpart here).
* Go `int` values (`ExitCode`, `LineOffset`) are modelled by `Int`. The only
  arithmetic on them is the loop counter `lo++`, bounded by the number of
  segments of one captured output, far below `2^63`.
* `e.execbeat.client.PublishEvent` is modelled by explicit state passing: the
  client is the log of the events handed to it, oldest first.
* Calls of the logger (`logp`) have no effect on the values studied here and are
  left out, and so is `Executor.Run`, which fills in the default document type
  and schedule and registers `runOneTime` with the cron scheduler.
-/

namespace beat

/-! ## Go standard library: `len`, `strings.Split`, `strings.TrimSpace` -/

/-- Go `len(s)` of a string: its length in bytes (UTF-8). -/
def len (s : String) : Nat := s.utf8ByteSize

/-- Splitting a list of characters at every occurrence of `sep`: the segments
between consecutive separators, in order, empty segments included. -/
def splitChars (sep : Char) : List Char → List (List Char)
  | [] => [[]]
  | c :: cs =>
    if c = sep then [] :: splitChars sep cs
    else
      match splitChars sep cs with
      | [] => [[c]]
      | seg :: rest => (c :: seg) :: rest

/-- Go `strings.Split(s, sep)` for a separator of one character, which is how
both call sites use it (`" "` and `"\n"`): all substrings of `s` between
separators; a string without the separator gives the one-element list `[s]`. -/
def Split (s : String) (sep : Char) : List String :=
  (splitChars sep s.data).map String.mk

/-- Go `unicode.IsSpace`: the code points with the Unicode White_Space
property. -/
def isSpace (c : Char) : Bool :=
  let n := c.toNat
  n = 0x09 || n = 0x0A || n = 0x0B || n = 0x0C || n = 0x0D || n = 0x20 ||
  n = 0x85 || n = 0xA0 || n = 0x1680 || (0x2000 ≤ n && n ≤ 0x200A) ||
  n = 0x2028 || n = 0x2029 || n = 0x202F || n = 0x205F || n = 0x3000

/-- Go `strings.TrimSpace(s)`: `s` without its leading and trailing white
space. -/
def TrimSpace (s : String) : String :=
  String.mk ((s.data.dropWhile isSpace).reverse.dropWhile isSpace).reverse

/-! ## `execevent.go` -/

/-- Go `time.Time`, reduced to the instant it denotes. -/
structure Time where
  unixNano : Int
  deriving DecidableEq, Repr

/-- The struct `Exec` of `execevent.go`. A field left out of a composite
literal has Go's zero value (`""`, `0`), which is each field's default here. -/
structure Exec where
  Command : String := ""
  StdOut : String := ""
  LineOffset : Int := 0
  StdErr : String := ""
  ExitCode : Int := 0
  deriving DecidableEq, Repr

/-- The struct `ExecEvent` of `execevent.go`. `Fields` is a Go
`map[string]string`; `none` is the nil map. -/
structure ExecEvent where
  ReadTime : Time
  DocumentType : String
  Fields : Option (List (String × String))
  Exec : Exec
  deriving DecidableEq, Repr

/-- The values `ToMapStr` stores in a `common.MapStr`
(`map[string]interface{}`). -/
inductive MapVal where
  | time (t : Time)
  | str (s : String)
  | exec (x : Exec)
  | fields (m : List (String × String))
  deriving DecidableEq, Repr

/-- The map `common.MapStr`, as the list of its entries, at most one per key. -/
structure MapStr where
  entries : List (String × MapVal)
  deriving DecidableEq, Repr

/-- The map lookup `m[k]`; `none` when the key is absent. -/
def MapStr.get (m : MapStr) (k : String) : Option MapVal :=
  m.entries.lookup k

/-- The map assignment `m[k] = v`. -/
def MapStr.set (m : MapStr) (k : String) (v : MapVal) : MapStr :=
  ⟨(m.entries.filter (fun kv => kv.1 != k)) ++ [(k, v)]⟩

/-- The method `ExecEvent.ToMapStr` of `execevent.go`. -/
def ExecEvent.ToMapStr (h : ExecEvent) : MapStr :=
  let event : MapStr :=
    ((((⟨[]⟩ : MapStr).set "@timestamp" (.time h.ReadTime)).set "type"
      (.str h.DocumentType)).set "exec" (.exec h.Exec))
  match h.Fields with
  | some m => event.set "fields" (.fields m)
  | none => event

/-- One member of a JSON object, as `encoding/json` writes a struct field. -/
inductive JSONVal where
  | str (s : String)
  | num (n : Int)
  deriving DecidableEq, Repr

/-- The JSON object `encoding/json` writes for an `Exec`, following the struct
tags of `execevent.go`: `command` and `stderr` are `omitempty` (left out when
the string is empty); `stdout`, `lineOffset` and `exitCode` are always
written. -/
def Exec.json (x : Exec) : List (String × JSONVal) :=
  (if x.Command = "" then [] else [("command", JSONVal.str x.Command)]) ++
  [("stdout", JSONVal.str x.StdOut), ("lineOffset", JSONVal.num x.LineOffset)] ++
  (if x.StdErr = "" then [] else [("stderr", JSONVal.str x.StdErr)]) ++
  [("exitCode", JSONVal.num x.ExitCode)]

/-! ## `executor.go` -/

/-- Modelled from the spec: the type `config.ExecConfig` is imported from the
package `config`, which is not among the sources; these are the settings the
executor reads from it (`command`, `args`, `schedule`, `documentType`,
`splitLines`, `fields`). An unset string is `""`, an unset map is nil. -/
structure ExecConfig where
  Command : String := ""
  Args : String := ""
  Schedule : String := ""
  DocumentType : String := ""
  SplitLines : Bool := false
  Fields : Option (List (String × String)) := none
  deriving DecidableEq, Repr

/-- The struct `Executor` of `executor.go`. Its field `execbeat` only serves to
reach the publishing client, which is passed explicitly instead. -/
structure Executor where
  config : ExecConfig
  schedule : String := ""
  documentType : String := ""
  deriving DecidableEq, Repr

/-- The publishing client, as the log of the events handed to it, oldest
first. -/
abbrev Client := List MapStr

/-- The call `client.PublishEvent(event)`. -/
def PublishEvent (client : Client) (event : MapStr) : Client :=
  client ++ [event]

/-- The event `publishOutput` builds in combined mode (`executor.go`, the
composite literals of the branch `!e.config.SplitLines`). -/
def combinedEvent (e : Executor) (cmdName : String) (exitCode : Int) (now : Time)
    (stdout : String) (stderr : String) : ExecEvent :=
  let commandEvent : Exec :=
    { Command := cmdName, StdOut := stdout, StdErr := stderr, ExitCode := exitCode }
  { ReadTime := now, DocumentType := e.documentType, Fields := e.config.Fields,
    Exec := commandEvent }

/-- The event `publishOutput` builds for stderr in split mode (the composite
literals under `if len(stderr)>0`). -/
def stderrEvent (e : Executor) (cmdName : String) (exitCode : Int) (now : Time)
    (stderr : String) : ExecEvent :=
  let commandEvent : Exec :=
    { Command := cmdName, StdErr := stderr, ExitCode := exitCode }
  { ReadTime := now, DocumentType := e.documentType, Fields := e.config.Fields,
    Exec := commandEvent }

/-- The event `publishOutput` builds for the segment `s` of stdout when the
counter is `lo` (the composite literals in the loop body). -/
def lineEvent (e : Executor) (cmdName : String) (exitCode : Int) (now : Time)
    (lo : Int) (s : String) : ExecEvent :=
  let commandEvent : Exec :=
    { Command := cmdName, StdOut := s, LineOffset := lo, ExitCode := exitCode }
  { ReadTime := now, DocumentType := e.documentType, Fields := e.config.Fields,
    Exec := commandEvent }

/-- One iteration of the loop over the segments of stdout in `publishOutput`;
the state is the client and the counter `lo`. -/
def publishLine (e : Executor) (cmdName : String) (exitCode : Int) (now : Time)
    (st : Client × Int) (s : String) : Client × Int :=
  if len s > 0 then
    (PublishEvent st.1 (lineEvent e cmdName exitCode now st.2 s).ToMapStr, st.2 + 1)
  else st

/-- The method `Executor.publishOutput` of `executor.go`; returns the client
after the call. -/
def publishOutput (e : Executor) (client : Client) (cmdName : String) (exitCode : Int)
    (now : Time) (stdout : String) (stderr : String) : Client :=
  if !e.config.SplitLines then
    PublishEvent client (combinedEvent e cmdName exitCode now stdout stderr).ToMapStr
  else
    let client :=
      if len stderr > 0 then
        PublishEvent client (stderrEvent e cmdName exitCode now stderr).ToMapStr
      else client
    ((Split stdout '\n').foldl (publishLine e cmdName exitCode now) (client, 0)).1

/-! ## The operating system, as `os/exec` presents it -/

/-- How a child process ended, as `os.ProcessState` records it: it exited with a
status, or a signal killed it. -/
inductive ProcessState where
  | exited (status : Nat)
  | signaled (signal : Nat)
  deriving DecidableEq, Repr

/-- Go `ProcessState.Success`: the process exited with status 0. -/
def ProcessState.Success : ProcessState → Bool
  | .exited status => status == 0
  | .signaled _ => false

/-- Go `syscall.WaitStatus.ExitStatus`: the exit status of a process that
exited, `-1` for one that did not exit. -/
def ProcessState.ExitStatus : ProcessState → Int
  | .exited status => (status : Int)
  | .signaled _ => -1

/-- The errors `Cmd.Start` and `Cmd.Wait` return: an `*exec.ExitError`, which
holds the state of the process, or an error of another type. -/
inductive Error where
  | exitError (state : ProcessState)
  | other
  deriving DecidableEq, Repr

/-- A command as `exec.Command(name, arg...)` receives it. -/
structure Cmd where
  Name : String
  Args : List String
  deriving DecidableEq, Repr

/-- Go `exec.Command(name, arg...)`. -/
def Command (name : String) (arg : List String) : Cmd :=
  { Name := name, Args := arg }

/-- What the operating system does with one command: whether starting it
fails, and for a started process whether waiting for it fails, how it ended,
whether copying its output failed, and what reached the two buffers. -/
structure Process where
  startFails : Bool
  waitFails : Bool := false
  state : ProcessState := .exited 0
  copyFails : Bool := false
  stdout : String := ""
  stderr : String := ""
  deriving DecidableEq, Repr

/-- Go `Cmd.Start`: an error when the process cannot be started. -/
def Process.Start (p : Process) : Option Error :=
  if p.startFails then some .other else none

/-- Go `Cmd.Wait`: on a command that was not started it returns the error
"exec: not started"; otherwise the error of the wait call if there is one, an
`*exec.ExitError` if the process did not end successfully, the copying error if
there is one, and nil otherwise. -/
def Process.Wait (p : Process) : Option Error :=
  if p.startFails then some .other
  else if p.waitFails then some .other
  else if !p.state.Success then some (.exitError p.state)
  else if p.copyFails then some .other
  else none

/-- The content of the buffer `cmd.Stdout` after `Wait`: nothing is written to
it unless the process started. -/
def Process.Stdout (p : Process) : String :=
  if p.startFails then "" else p.stdout

/-- The content of the buffer `cmd.Stderr` after `Wait`. -/
def Process.Stderr (p : Process) : String :=
  if p.startFails then "" else p.stderr

/-- The effects of one call of `runOneTime`: the command it built and started,
the client after the call, and the error it returns. -/
structure RunOutcome where
  cmd : Cmd
  client : Client
  err : Option Error
  deriving DecidableEq, Repr

/-- The method `Executor.runOneTime` of `executor.go`. `now` is the value of
`time.Now()` and `sys` tells what the operating system does with the command. -/
def runOneTime (e : Executor) (client : Client) (now : Time) (sys : Cmd → Process) : RunOutcome :=
  let exitCode : Int := 0
  let cmdName := TrimSpace e.config.Command
  let args := TrimSpace e.config.Args
  let cmdArgs : List String := if len args > 0 then Split args ' ' else []
  let cmd : Cmd :=
    if cmdArgs.length > 0 then Command cmdName cmdArgs else Command cmdName []
  let proc := sys cmd
  let exitCode : Int :=
    match proc.Start with
    | some _ => 127
    | none => exitCode
  let exitCode : Int :=
    match proc.Wait with
    | some (.exitError state) => state.ExitStatus
    | _ => exitCode
  { cmd := cmd
    client := publishOutput e client cmdName exitCode now proc.Stdout proc.Stderr
    err := none }

/-! ## Reading published events -/

/-- The `exec` entry of a published event. -/
def execOf (ev : MapStr) : Option Exec :=
  match ev.get "exec" with
  | some (.exec x) => some x
  | _ => none

/-- Reading an event as a stdout-line record: the pair of its `lineOffset` and
its stdout line, for an event whose `exec` carries a non-empty stdout. -/
def stdoutLine (ev : MapStr) : Option (Int × String) :=
  match execOf ev with
  | some x => if x.StdOut = "" then none else some (x.LineOffset, x.StdOut)
  | none => none

/-- An event is a stderr record when its `exec` holds a non-empty stderr. -/
def isStderrRecord (ev : MapStr) : Prop :=
  ∃ x : Exec, execOf ev = some x ∧ x.StdErr ≠ ""

/-! ## Sample executors -/

/-- An executor in split mode, for the concrete instances below. -/
def splitExecutor : Executor :=
  { config := { Command := "echo", SplitLines := true, Fields := some [("env", "test")] },
    documentType := "exec" }

/-- An executor in combined mode, for the concrete instances below. -/
def combinedExecutor : Executor :=
  { config := { Command := "echo", SplitLines := false }, documentType := "exec" }

/-! ## Auxiliary lemmas -/

theorem len_pos_iff (s : String) : len s > 0 ↔ s ≠ "" := by
  obtain ⟨l⟩ := s
  cases l with
  | nil => simp [len, String.utf8ByteSize, String.utf8ByteSize.go]
  | cons c cs =>
    have hc := Char.utf8Size_pos c
    have hne : String.mk (c :: cs) ≠ "" := by
      intro h
      have := congrArg String.data h
      simp at this
    simp only [len, String.utf8ByteSize, String.utf8ByteSize.go, gt_iff_lt, ne_eq, hne,
      not_false_eq_true, iff_true]
    omega

theorem get_timestamp (h : ExecEvent) : h.ToMapStr.get "@timestamp" = some (.time h.ReadTime) := by
  obtain ⟨t, d, f, x⟩ := h
  cases f <;> rfl

theorem get_type (h : ExecEvent) : h.ToMapStr.get "type" = some (.str h.DocumentType) := by
  obtain ⟨t, d, f, x⟩ := h
  cases f <;> rfl

theorem get_exec (h : ExecEvent) : h.ToMapStr.get "exec" = some (.exec h.Exec) := by
  obtain ⟨t, d, f, x⟩ := h
  cases f <;> rfl

theorem get_fields (h : ExecEvent) : h.ToMapStr.get "fields" = h.Fields.map MapVal.fields := by
  obtain ⟨t, d, f, x⟩ := h
  cases f <;> rfl

theorem execOf_ToMapStr (h : ExecEvent) : execOf h.ToMapStr = some h.Exec := by
  simp [execOf, get_exec]

theorem foldl_publishLine (e : Executor) (cmdName : String) (exitCode : Int) (now : Time)
    (segs : List String) (c : Client) (n : Nat) :
    segs.foldl (publishLine e cmdName exitCode now) (c, (n : Int)) =
      (c ++ ((segs.filter (fun s => decide (s ≠ ""))).enumFrom n).map
          (fun p => (lineEvent e cmdName exitCode now (p.1 : Int) p.2).ToMapStr),
        ((n + (segs.filter (fun s => decide (s ≠ ""))).length : Nat) : Int)) := by
  induction segs generalizing c n with
  | nil => simp
  | cons s ss ih =>
    by_cases hs : s = ""
    · subst hs
      have h0 : ¬ (len "" > 0) := by decide
      simp only [List.foldl_cons, publishLine, h0, if_false]
      rw [ih]
      simp
    · have h1 : len s > 0 := (len_pos_iff s).2 hs
      simp only [List.foldl_cons, publishLine, h1, if_true]
      have hcast : ((n : Int) + 1) = ((n + 1 : Nat) : Int) := by push_cast; rfl
      rw [hcast, ih]
      simp [hs, PublishEvent, List.enumFrom_cons]
      omega

/-- The events `publishOutput` adds to the client in split mode. -/
theorem publishOutput_split (e : Executor) (c : Client) (cmdName : String) (exitCode : Int)
    (now : Time) (stdout stderr : String) (hsplit : e.config.SplitLines = true) :
    publishOutput e c cmdName exitCode now stdout stderr =
      c ++ ((if stderr = "" then [] else [(stderrEvent e cmdName exitCode now stderr).ToMapStr]) ++
        (((Split stdout '\n').filter (fun s => decide (s ≠ ""))).enum).map
          (fun p => (lineEvent e cmdName exitCode now (p.1 : Int) p.2).ToMapStr)) := by
  have h := foldl_publishLine e cmdName exitCode now (Split stdout '\n')
  unfold publishOutput
  simp only [hsplit, Bool.not_true, Bool.false_eq_true, if_false]
  by_cases hs : stderr = ""
  · subst hs
    have h0 : ¬ (len "" > 0) := by decide
    simp only [h0, if_false, if_true]
    have := h c 0
    simp only [Nat.cast_zero] at this
    rw [this]
    simp [List.enum]
  · have h1 : len stderr > 0 := (len_pos_iff stderr).2 hs
    simp only [h1, if_true, hs, if_false]
    have := h (PublishEvent c (stderrEvent e cmdName exitCode now stderr).ToMapStr) 0
    simp only [Nat.cast_zero] at this
    rw [this]
    simp [List.enum, PublishEvent]

/-- The event `publishOutput` adds to the client in combined mode. -/
theorem publishOutput_combined (e : Executor) (c : Client) (cmdName : String) (exitCode : Int)
    (now : Time) (stdout stderr : String) (hsplit : e.config.SplitLines = false) :
    publishOutput e c cmdName exitCode now stdout stderr =
      c ++ [(combinedEvent e cmdName exitCode now stdout stderr).ToMapStr] := by
  simp [publishOutput, hsplit, PublishEvent]

theorem splitChars_ne_nil (sep : Char) (l : List Char) : splitChars sep l ≠ [] := by
  cases l with
  | nil => simp [splitChars]
  | cons c cs =>
    unfold splitChars
    split
    · simp
    · split <;> simp

theorem splitChars_all_sep (sep : Char) (l : List Char) (h : ∀ ch ∈ l, ch = sep) :
    ∀ seg ∈ splitChars sep l, seg = [] := by
  induction l with
  | nil => simp [splitChars]
  | cons c cs ih =>
    have hc : c = sep := h c (List.mem_cons_self c cs)
    have ih2 := ih (fun ch hch => h ch (List.mem_cons_of_mem c hch))
    intro seg hseg
    simp only [splitChars, hc, if_true, List.mem_cons] at hseg
    rcases hseg with rfl | hseg
    · rfl
    · exact ih2 seg hseg

theorem Split_only_newlines (stdout : String) (h : ∀ ch ∈ stdout.data, ch = '\n') :
    (Split stdout '\n').filter (fun s => decide (s ≠ "")) = [] := by
  rw [List.filter_eq_nil_iff]
  intro s hs
  simp only [Split, List.mem_map] at hs
  obtain ⟨seg, hseg, rfl⟩ := hs
  have := splitChars_all_sep '\n' stdout.data h seg hseg
  subst this
  decide

theorem filterMap_stdoutLine_lineEvents (e : Executor) (cmdName : String) (exitCode : Int)
    (now : Time) (l : List String) (hl : ∀ s ∈ l, s ≠ "") (n : Nat) :
    ((l.enumFrom n).map
        (fun p => (lineEvent e cmdName exitCode now (p.1 : Int) p.2).ToMapStr)).filterMap
        stdoutLine =
      (l.enumFrom n).map (fun p => ((p.1 : Int), p.2)) := by
  induction l generalizing n with
  | nil => simp
  | cons s ss ih =>
    have hs : s ≠ "" := hl s (List.mem_cons_self s ss)
    have ih2 := ih (fun t ht => hl t (List.mem_cons_of_mem s ht)) (n + 1)
    simp only [List.enumFrom_cons, List.map_cons, List.filterMap_cons]
    rw [ih2]
    simp [stdoutLine, execOf_ToMapStr, lineEvent, hs]

theorem splitChars_intercalate (sep : Char) (l : List Char) :
    List.intercalate [sep] (splitChars sep l) = l := by
  induction l with
  | nil => simp [splitChars, List.intercalate]
  | cons c cs ih =>
    have hne := splitChars_ne_nil sep cs
    unfold splitChars
    cases hsp : splitChars sep cs with
    | nil => exact absurd hsp hne
    | cons seg rest =>
      rw [hsp] at ih
      by_cases hc : c = sep
      · simp only [hc, if_true]
        simp only [List.intercalate, List.intersperse, List.flatten] at ih ⊢
        simp [ih]
      · simp only [hc, if_false]
        cases rest with
        | nil =>
          simp only [List.intercalate, List.intersperse, List.flatten, List.append_nil] at ih ⊢
          rw [ih]
        | cons seg2 rest2 =>
          simp only [List.intercalate, List.intersperse, List.flatten, List.cons_append] at ih ⊢
          rw [ih]

theorem splitChars_no_sep (sep : Char) (l : List Char) :
    ∀ seg ∈ splitChars sep l, sep ∉ seg := by
  induction l with
  | nil => simp [splitChars]
  | cons c cs ih =>
    have hne := splitChars_ne_nil sep cs
    unfold splitChars
    cases hsp : splitChars sep cs with
    | nil => exact absurd hsp hne
    | cons seg rest =>
      rw [hsp] at ih
      by_cases hc : c = sep
      · simp only [hc, if_true]
        intro s hs
        rcases List.mem_cons.1 hs with rfl | hs
        · simp
        · exact ih s hs
      · simp only [hc, if_false]
        intro s hs
        rcases List.mem_cons.1 hs with rfl | hs
        · intro hmem
          rcases List.mem_cons.1 hmem with h | h
          · exact hc h.symm
          · exact ih seg (List.mem_cons_self seg rest) h
        · exact ih s (List.mem_cons_of_mem seg hs)

theorem Split_ne_nil (s : String) (sep : Char) : Split s sep ≠ [] := by
  simp [Split, splitChars_ne_nil]

/-! ## The claims -/

/-- C1: in split mode, for every stdout, stderr and exit code, the events
`publishOutput` publishes are the stderr event (when stderr is non-empty, and
it is no stdout-line record) followed by exactly one stdout-line record for
each non-empty segment of stdout split on the newline, in the order of the
segments, the k-th of them (from 0) holding the k-th non-empty segment and
`lineOffset` k; an empty segment gets no record and no offset. Stdout
`"a\n\nb\n"` and stdout `"a\nb\n"` both give exactly the two stdout-line
records `(0, "a")`, `(1, "b")`. -/
theorem split_mode_stdout_lines (e : Executor) (c : Client) (cmdName : String)
    (exitCode : Int) (now : Time) (stdout stderr : String)
    (hsplit : e.config.SplitLines = true) :
    ∃ (pre lines : List MapStr),
      publishOutput e c cmdName exitCode now stdout stderr = c ++ pre ++ lines ∧
      pre = (if stderr = "" then []
              else [(stderrEvent e cmdName exitCode now stderr).ToMapStr]) ∧
      (∀ ev ∈ pre, stdoutLine ev = none) ∧
      lines = (((Split stdout '\n').filter (fun s => decide (s ≠ ""))).enum).map
          (fun p => (lineEvent e cmdName exitCode now (p.1 : Int) p.2).ToMapStr) ∧
      lines.map execOf = (((Split stdout '\n').filter (fun s => decide (s ≠ ""))).enum).map
          (fun p => some { Command := cmdName, StdOut := p.2, LineOffset := (p.1 : Int),
                           StdErr := "", ExitCode := exitCode }) ∧
      lines.length = ((Split stdout '\n').filter (fun s => decide (s ≠ ""))).length ∧
      (pre ++ lines).filterMap stdoutLine =
        (((Split stdout '\n').filter (fun s => decide (s ≠ ""))).enum).map
          (fun p => ((p.1 : Int), p.2)) ∧
      (stdout = "a\n\nb\n" → lines.map execOf =
        [some { Command := cmdName, StdOut := "a", LineOffset := 0, StdErr := "",
                ExitCode := exitCode },
         some { Command := cmdName, StdOut := "b", LineOffset := 1, StdErr := "",
                ExitCode := exitCode }]) ∧
      (stdout = "a\nb\n" → lines.map execOf =
        [some { Command := cmdName, StdOut := "a", LineOffset := 0, StdErr := "",
                ExitCode := exitCode },
         some { Command := cmdName, StdOut := "b", LineOffset := 1, StdErr := "",
                ExitCode := exitCode }]) := by
  have hpre : ∀ ev ∈ (if stderr = "" then []
      else [(stderrEvent e cmdName exitCode now stderr).ToMapStr]), stdoutLine ev = none := by
    intro ev hev
    by_cases hs : stderr = ""
    · simp [hs] at hev
    · simp only [hs, if_false, List.mem_singleton] at hev
      subst hev
      simp [stdoutLine, execOf_ToMapStr, stderrEvent]
  have hexec : ∀ l : List (Nat × String),
      (l.map (fun p => (lineEvent e cmdName exitCode now (p.1 : Int) p.2).ToMapStr)).map execOf =
        l.map (fun p => some { Command := cmdName, StdOut := p.2, LineOffset := (p.1 : Int),
                               StdErr := "", ExitCode := exitCode }) := by
    intro l
    rw [List.map_map]
    apply List.map_congr_left
    intro p _
    simp [execOf_ToMapStr, lineEvent]
  have hlines :
      ((if stderr = "" then [] else [(stderrEvent e cmdName exitCode now stderr).ToMapStr]) ++
        (((Split stdout '\n').filter (fun s => decide (s ≠ ""))).enum).map
          (fun p => (lineEvent e cmdName exitCode now (p.1 : Int) p.2).ToMapStr)).filterMap
          stdoutLine =
        (((Split stdout '\n').filter (fun s => decide (s ≠ ""))).enum).map
          (fun p => ((p.1 : Int), p.2)) := by
    rw [List.filterMap_append]
    have h0 : (if stderr = "" then []
        else [(stderrEvent e cmdName exitCode now stderr).ToMapStr]).filterMap stdoutLine = [] := by
      rw [List.filterMap_eq_nil_iff]
      exact hpre
    rw [h0, List.nil_append]
    exact filterMap_stdoutLine_lineEvents e cmdName exitCode now _
      (fun s hs => by simpa using (List.mem_filter.1 hs).2) 0
  refine ⟨_, _, ?_, rfl, hpre, rfl, hexec _, ?_, hlines, ?_, ?_⟩
  · rw [publishOutput_split e c cmdName exitCode now stdout stderr hsplit, List.append_assoc]
  · simp [List.enum]
  · intro h
    have hseg : ((Split "a\n\nb\n" '\n').filter (fun s => decide (s ≠ ""))).enum =
        [(0, "a"), (1, "b")] := by decide
    rw [hexec, h, hseg]
    rfl
  · intro h
    have hseg : ((Split "a\nb\n" '\n').filter (fun s => decide (s ≠ ""))).enum =
        [(0, "a"), (1, "b")] := by decide
    rw [hexec, h, hseg]
    rfl

/-- C1, at a concrete run: stdout `"a\n\nb\n"` with a non-empty stderr gives
the stderr event and then exactly the two records for `"a"` and `"b"`. -/
theorem split_mode_stdout_lines_witness :
    splitExecutor.config.SplitLines = true ∧
    (publishOutput splitExecutor [] "echo" 0 ⟨0⟩ "a\n\nb\n" "warn").map execOf =
      [some { Command := "echo", StdOut := "", LineOffset := 0, StdErr := "warn", ExitCode := 0 },
       some { Command := "echo", StdOut := "a", LineOffset := 0, StdErr := "", ExitCode := 0 },
       some { Command := "echo", StdOut := "b", LineOffset := 1, StdErr := "", ExitCode := 0 }] ∧
    ∃ (pre lines : List MapStr),
      publishOutput splitExecutor [] "echo" 0 ⟨0⟩ "a\n\nb\n" "warn" = [] ++ pre ++ lines ∧
      pre = [(stderrEvent splitExecutor "echo" 0 ⟨0⟩ "warn").ToMapStr] ∧
      lines.map execOf =
        [some { Command := "echo", StdOut := "a", LineOffset := 0, StdErr := "", ExitCode := 0 },
         some { Command := "echo", StdOut := "b", LineOffset := 1, StdErr := "",
                ExitCode := 0 }] :=
  match split_mode_stdout_lines splitExecutor [] "echo" 0 ⟨0⟩ "a\n\nb\n" "warn" (by decide) with
  | ⟨pre, lines, h1, h2, _, _, _, _, _, h8, _⟩ =>
    ⟨by decide, by decide, pre, lines, h1, h2, h8 rfl⟩

/-- C2: in combined mode, for every stdout, stderr and exit code,
`publishOutput` publishes exactly one event, whose `exec` holds the command
name, the whole stdout, the whole stderr and the exit code; with empty output
and exit code 0 its stdout and stderr are empty and its exit code is 0. -/
theorem combined_mode_one_record (e : Executor) (c : Client) (cmdName : String)
    (exitCode : Int) (now : Time) (stdout stderr : String)
    (hsplit : e.config.SplitLines = false) :
    ∃ ev : MapStr,
      publishOutput e c cmdName exitCode now stdout stderr = c ++ [ev] ∧
      execOf ev = some { Command := cmdName, StdOut := stdout, LineOffset := 0,
                         StdErr := stderr, ExitCode := exitCode } ∧
      (stdout = "" → stderr = "" → exitCode = 0 →
        execOf ev = some { Command := cmdName, StdOut := "", LineOffset := 0,
                           StdErr := "", ExitCode := 0 }) := by
  refine ⟨_, publishOutput_combined e c cmdName exitCode now stdout stderr hsplit, ?_, ?_⟩
  · simp [execOf_ToMapStr, combinedEvent]
  · intro h1 h2 h3
    simp [execOf_ToMapStr, combinedEvent, h1, h2, h3]

/-- C2, at a concrete run: output with embedded newlines and exit code 3. -/
theorem combined_mode_one_record_witness :
    combinedExecutor.config.SplitLines = false ∧
    ∃ ev : MapStr,
      publishOutput combinedExecutor [] "echo" 3 ⟨0⟩ "a\n\nb\n" "x\ny" = [] ++ [ev] ∧
      execOf ev = some { Command := "echo", StdOut := "a\n\nb\n", LineOffset := 0,
                         StdErr := "x\ny", ExitCode := 3 } ∧
      ("a\n\nb\n" = "" → "x\ny" = "" → (3 : Int) = 0 →
        execOf ev = some { Command := "echo", StdOut := "", LineOffset := 0,
                           StdErr := "", ExitCode := 0 }) :=
  ⟨by decide, combined_mode_one_record combinedExecutor [] "echo" 3 ⟨0⟩ "a\n\nb\n" "x\ny"
    (by decide)⟩

/-- C3: in split mode, when stderr is empty no published event is a stderr
record; when stderr is non-empty the first published event holds the command
name, the full stderr and the exit code, and every later event is a stdout-line
record and not a stderr record. -/
theorem split_mode_stderr_record (e : Executor) (c : Client) (cmdName : String)
    (exitCode : Int) (now : Time) (stdout stderr : String)
    (hsplit : e.config.SplitLines = true) :
    ∃ evs : List MapStr,
      publishOutput e c cmdName exitCode now stdout stderr = c ++ evs ∧
      (stderr = "" → ∀ ev ∈ evs, ¬ isStderrRecord ev) ∧
      (stderr ≠ "" → ∃ (first : MapStr) (rest : List MapStr),
        evs = first :: rest ∧
        execOf first = some { Command := cmdName, StdOut := "", LineOffset := 0,
                              StdErr := stderr, ExitCode := exitCode } ∧
        isStderrRecord first ∧
        ∀ ev ∈ rest, ¬ isStderrRecord ev ∧ (stdoutLine ev).isSome = true) := by
  refine ⟨_, publishOutput_split e c cmdName exitCode now stdout stderr hsplit, ?_, ?_⟩
  · intro hs ev hev
    simp only [hs, if_true, List.nil_append, List.mem_map] at hev
    obtain ⟨p, _, rfl⟩ := hev
    rintro ⟨x, hx, hne⟩
    rw [execOf_ToMapStr] at hx
    cases hx
    exact hne rfl
  · intro hs
    refine ⟨_, _, by simp only [hs, if_false, List.singleton_append]; rfl, ?_, ?_, ?_⟩
    · simp [execOf_ToMapStr, stderrEvent]
    · exact ⟨_, execOf_ToMapStr _, by simpa [stderrEvent] using hs⟩
    · intro ev hev
      simp only [List.mem_map] at hev
      obtain ⟨p, hp, rfl⟩ := hev
      have hp2 : p.2 ≠ "" := by
        have := List.mem_filter.1 (List.snd_mem_of_mem_enumFrom hp)
        simpa using this.2
      refine ⟨?_, ?_⟩
      · rintro ⟨x, hx, hne⟩
        rw [execOf_ToMapStr] at hx
        cases hx
        exact hne rfl
      · simp [stdoutLine, execOf_ToMapStr, lineEvent, hp2]

/-- C3, at a concrete run with non-empty stderr and two stdout lines. -/
theorem split_mode_stderr_record_witness :
    splitExecutor.config.SplitLines = true ∧
    ∃ evs : List MapStr,
      publishOutput splitExecutor [] "echo" 2 ⟨0⟩ "a\nb\n" "warn" = [] ++ evs ∧
      ("warn" = "" → ∀ ev ∈ evs, ¬ isStderrRecord ev) ∧
      ("warn" ≠ "" → ∃ (first : MapStr) (rest : List MapStr),
        evs = first :: rest ∧
        execOf first = some { Command := "echo", StdOut := "", LineOffset := 0,
                              StdErr := "warn", ExitCode := 2 } ∧
        isStderrRecord first ∧
        ∀ ev ∈ rest, ¬ isStderrRecord ev ∧ (stdoutLine ev).isSome = true) :=
  ⟨by decide, split_mode_stderr_record splitExecutor [] "echo" 2 ⟨0⟩ "a\nb\n" "warn" (by decide)⟩

/-- C4: in split mode, for every exit code, when stdout is empty or holds
newline characters only, `publishOutput` publishes nothing if stderr is empty
and publishes the stderr event alone if stderr is non-empty. -/
theorem split_mode_blank_stdout (e : Executor) (c : Client) (cmdName : String)
    (exitCode : Int) (now : Time) (stdout stderr : String)
    (hsplit : e.config.SplitLines = true)
    (hblank : ∀ ch ∈ stdout.data, ch = '\n') :
    (stderr = "" → publishOutput e c cmdName exitCode now stdout stderr = c) ∧
    (stderr ≠ "" → publishOutput e c cmdName exitCode now stdout stderr =
      c ++ [(stderrEvent e cmdName exitCode now stderr).ToMapStr]) := by
  rw [publishOutput_split e c cmdName exitCode now stdout stderr hsplit,
    Split_only_newlines stdout hblank]
  constructor
  · intro hs
    simp [hs, List.enum]
  · intro hs
    simp [hs, List.enum]

/-- C4, at a concrete run whose stdout is three newlines. -/
theorem split_mode_blank_stdout_witness :
    splitExecutor.config.SplitLines = true ∧
    (∀ ch ∈ "\n\n\n".data, ch = '\n') ∧
    ("warn" = "" → publishOutput splitExecutor [] "echo" 1 ⟨0⟩ "\n\n\n" "warn" = []) ∧
    ("warn" ≠ "" → publishOutput splitExecutor [] "echo" 1 ⟨0⟩ "\n\n\n" "warn" =
      [] ++ [(stderrEvent splitExecutor "echo" 1 ⟨0⟩ "warn").ToMapStr]) :=
  ⟨by decide, by decide,
    split_mode_blank_stdout splitExecutor [] "echo" 1 ⟨0⟩ "\n\n\n" "warn" (by decide)
      (by decide)⟩

/-- C5: `ToMapStr` keeps the timestamp, the type and the exec of an event and
puts the fields map under `fields` exactly when it is non-nil; and in both
modes every event `publishOutput` publishes carries the timestamp passed in,
the document type of the executor, the configured fields map unchanged, and
the exit code passed in. -/
theorem published_records_share_run_data :
    (∀ h : ExecEvent,
      h.ToMapStr.get "@timestamp" = some (.time h.ReadTime) ∧
      h.ToMapStr.get "type" = some (.str h.DocumentType) ∧
      h.ToMapStr.get "exec" = some (.exec h.Exec) ∧
      h.ToMapStr.get "fields" = h.Fields.map MapVal.fields) ∧
    (∀ (e : Executor) (c : Client) (cmdName : String) (exitCode : Int) (now : Time)
        (stdout stderr : String),
      ∃ evs : List MapStr,
        publishOutput e c cmdName exitCode now stdout stderr = c ++ evs ∧
        ∀ ev ∈ evs,
          ev.get "@timestamp" = some (.time now) ∧
          ev.get "type" = some (.str e.documentType) ∧
          ev.get "fields" = e.config.Fields.map MapVal.fields ∧
          ∃ x : Exec, ev.get "exec" = some (.exec x) ∧ x.ExitCode = exitCode) := by
  refine ⟨fun h => ⟨get_timestamp h, get_type h, get_exec h, get_fields h⟩, ?_⟩
  intro e c cmdName exitCode now stdout stderr
  have key : ∀ h : ExecEvent, h.ReadTime = now → h.DocumentType = e.documentType →
      h.Fields = e.config.Fields → h.Exec.ExitCode = exitCode →
      h.ToMapStr.get "@timestamp" = some (.time now) ∧
      h.ToMapStr.get "type" = some (.str e.documentType) ∧
      h.ToMapStr.get "fields" = e.config.Fields.map MapVal.fields ∧
      ∃ x : Exec, h.ToMapStr.get "exec" = some (.exec x) ∧ x.ExitCode = exitCode := by
    intro h h1 h2 h3 h4
    exact ⟨h1 ▸ get_timestamp h, h2 ▸ get_type h, h3 ▸ get_fields h, _, get_exec h, h4⟩
  cases hsplit : e.config.SplitLines with
  | false =>
    refine ⟨_, publishOutput_combined e c cmdName exitCode now stdout stderr hsplit, ?_⟩
    intro ev hev
    rw [List.mem_singleton] at hev
    subst hev
    exact key _ rfl rfl rfl rfl
  | true =>
    refine ⟨_, publishOutput_split e c cmdName exitCode now stdout stderr hsplit, ?_⟩
    intro ev hev
    rw [List.mem_append] at hev
    rcases hev with hev | hev
    · by_cases hs : stderr = ""
      · simp [hs] at hev
      · simp only [hs, if_false, List.mem_singleton] at hev
        subst hev
        exact key _ rfl rfl rfl rfl
    · simp only [List.mem_map] at hev
      obtain ⟨p, _, rfl⟩ := hev
      exact key _ rfl rfl rfl rfl

/-- C6: when starting the process fails, `runOneTime` hands exit code 127
with empty stdout and empty stderr to `publishOutput`, once, and returns no
error; in combined mode that is one event with exit code 127 and empty
output. -/
theorem spawn_failure_publishes_127 (e : Executor) (c : Client) (now : Time)
    (sys : Cmd → Process)
    (hfail : (sys (runOneTime e c now sys).cmd).startFails = true) :
    (runOneTime e c now sys).client =
      publishOutput e c (TrimSpace e.config.Command) 127 now "" "" ∧
    (runOneTime e c now sys).err = none ∧
    (e.config.SplitLines = false →
      ∃ ev : MapStr, (runOneTime e c now sys).client = c ++ [ev] ∧
        execOf ev = some { Command := TrimSpace e.config.Command, StdOut := "",
                           LineOffset := 0, StdErr := "", ExitCode := 127 }) := by
  have hclient : (runOneTime e c now sys).client =
      publishOutput e c (TrimSpace e.config.Command) 127 now "" "" := by
    simp only [runOneTime] at hfail ⊢
    simp [Process.Start, Process.Wait, Process.Stdout, Process.Stderr, hfail]
  refine ⟨hclient, rfl, ?_⟩
  intro hsplit
  rw [hclient, publishOutput_combined e c _ 127 now "" "" hsplit]
  exact ⟨_, rfl, by simp [execOf_ToMapStr, combinedEvent]⟩

/-- C6, at a concrete run: no executable of the configured name exists. -/
theorem spawn_failure_publishes_127_witness :
    (({ startFails := true } : Process)).startFails = true ∧
    (runOneTime combinedExecutor [] ⟨0⟩ (fun _ => { startFails := true })).client =
      publishOutput combinedExecutor [] (TrimSpace combinedExecutor.config.Command) 127 ⟨0⟩ "" "" ∧
    (runOneTime combinedExecutor [] ⟨0⟩ (fun _ => { startFails := true })).err = none ∧
    (combinedExecutor.config.SplitLines = false →
      ∃ ev : MapStr,
        (runOneTime combinedExecutor [] ⟨0⟩ (fun _ => { startFails := true })).client = [] ++ [ev] ∧
        execOf ev = some { Command := TrimSpace combinedExecutor.config.Command, StdOut := "",
                           LineOffset := 0, StdErr := "", ExitCode := 127 }) :=
  ⟨rfl, spawn_failure_publishes_127 combinedExecutor [] ⟨0⟩ (fun _ => { startFails := true }) rfl⟩

/-- C7 fails as stated: for a process that starts and is ended by signal 9,
`runOneTime` publishes one event with exit code `-1`: a negative number, which
is no exit status of a process, and not the signal mapped to an exit code
(`128 + 9`) either. -/
theorem signal_killed_run_publishes_minus_one :
    (runOneTime combinedExecutor [] ⟨0⟩
        (fun _ => { startFails := false, state := .signaled 9 })).client.map execOf =
      [some { Command := "echo", StdOut := "", LineOffset := 0, StdErr := "",
              ExitCode := -1 }] ∧
    ¬ (∀ x ∈ (runOneTime combinedExecutor [] ⟨0⟩
          (fun _ => { startFails := false, state := .signaled 9 })).client.filterMap execOf,
        0 ≤ x.ExitCode) ∧
    ¬ (∀ x ∈ (runOneTime combinedExecutor [] ⟨0⟩
          (fun _ => { startFails := false, state := .signaled 9 })).client.filterMap execOf,
        x.ExitCode = 128 + 9) := by
  decide

/-- C7, amended: when the process starts, `runOneTime` publishes the captured
output and returns no error, and the exit code it publishes is the exit status
`n` of a process that exited with status `n` (0 for one that ended
successfully), `-1` for a process that a signal ended, and 0 when waiting for
the process itself failed. A process that exits with status 1 and writes
nothing gives, in combined mode, one event with exit code 1 and empty stdout
and stderr. -/
theorem started_run_publishes_exit_status (e : Executor) (c : Client) (now : Time)
    (sys : Cmd → Process)
    (hstart : (sys (runOneTime e c now sys).cmd).startFails = false) :
    (runOneTime e c now sys).client =
      publishOutput e c (TrimSpace e.config.Command)
        (if (sys (runOneTime e c now sys).cmd).waitFails = true then 0
         else
          match (sys (runOneTime e c now sys).cmd).state with
          | .exited n => (n : Int)
          | .signaled _ => -1)
        now
        (sys (runOneTime e c now sys).cmd).stdout (sys (runOneTime e c now sys).cmd).stderr ∧
    (runOneTime e c now sys).err = none ∧
    ((sys (runOneTime e c now sys).cmd).waitFails = false →
      (sys (runOneTime e c now sys).cmd).state.Success = true →
      (runOneTime e c now sys).client =
        publishOutput e c (TrimSpace e.config.Command) 0 now
          (sys (runOneTime e c now sys).cmd).stdout
          (sys (runOneTime e c now sys).cmd).stderr) ∧
    (∀ n : Nat, (sys (runOneTime e c now sys).cmd).waitFails = false →
      (sys (runOneTime e c now sys).cmd).state = .exited n →
      (runOneTime e c now sys).client =
        publishOutput e c (TrimSpace e.config.Command) (n : Int) now
          (sys (runOneTime e c now sys).cmd).stdout
          (sys (runOneTime e c now sys).cmd).stderr) ∧
    (∀ sig : Nat, (sys (runOneTime e c now sys).cmd).waitFails = false →
      (sys (runOneTime e c now sys).cmd).state = .signaled sig →
      (runOneTime e c now sys).client =
        publishOutput e c (TrimSpace e.config.Command) (-1) now
          (sys (runOneTime e c now sys).cmd).stdout
          (sys (runOneTime e c now sys).cmd).stderr) ∧
    (e.config.SplitLines = false →
      (sys (runOneTime e c now sys).cmd).waitFails = false →
      (sys (runOneTime e c now sys).cmd).state = .exited 1 →
      (sys (runOneTime e c now sys).cmd).stdout = "" →
      (sys (runOneTime e c now sys).cmd).stderr = "" →
      ∃ ev : MapStr, (runOneTime e c now sys).client = c ++ [ev] ∧
        execOf ev = some { Command := TrimSpace e.config.Command, StdOut := "",
                           LineOffset := 0, StdErr := "", ExitCode := 1 }) := by
  have hclient : (runOneTime e c now sys).client =
      publishOutput e c (TrimSpace e.config.Command)
        (if (sys (runOneTime e c now sys).cmd).waitFails = true then 0
         else
          match (sys (runOneTime e c now sys).cmd).state with
          | .exited n => (n : Int)
          | .signaled _ => -1)
        now
        (sys (runOneTime e c now sys).cmd).stdout
        (sys (runOneTime e c now sys).cmd).stderr := by
    simp only [runOneTime] at hstart ⊢
    simp only [Process.Start, Process.Wait, Process.Stdout, Process.Stderr, hstart,
      Bool.false_eq_true, if_false]
    generalize (sys _) = proc
    obtain ⟨sf, wf, st, cf, out, err⟩ := proc
    cases wf with
    | true => simp
    | false =>
      cases st with
      | exited n =>
        cases n with
        | zero => cases cf <;> simp [ProcessState.Success, ProcessState.ExitStatus]
        | succ m => simp [ProcessState.Success, ProcessState.ExitStatus]
      | signaled sig => simp [ProcessState.Success, ProcessState.ExitStatus]
  refine ⟨hclient, rfl, ?_, ?_, ?_, ?_⟩
  · intro hw hs
    rw [hclient, hw]
    generalize (sys _).state = st at hs ⊢
    cases st with
    | exited n =>
      have : n = 0 := by simpa [ProcessState.Success] using hs
      simp [this]
    | signaled sig => simp [ProcessState.Success] at hs
  · intro n hw hn
    rw [hclient, hw, hn]
    simp
  · intro sig hw hsig
    rw [hclient, hw, hsig]
    simp
  · intro hsplit hw hst hout herr
    rw [hclient, hw, hst, hout, herr, publishOutput_combined e c _ _ now "" "" hsplit]
    exact ⟨_, rfl, by simp [execOf_ToMapStr, combinedEvent]⟩

/-- C7 amended, at a concrete run: the command exits with status 1 and writes
nothing. -/
theorem started_run_publishes_exit_status_witness :
    (({ startFails := false, state := .exited 1 } : Process)).startFails = false ∧
    (runOneTime combinedExecutor [] ⟨0⟩
        (fun _ => { startFails := false, state := .exited 1 })).client =
      publishOutput combinedExecutor [] (TrimSpace combinedExecutor.config.Command) 1 ⟨0⟩ "" "" ∧
    (runOneTime combinedExecutor [] ⟨0⟩
        (fun _ => { startFails := false, state := .exited 1 })).err = none ∧
    ∃ ev : MapStr,
      (runOneTime combinedExecutor [] ⟨0⟩
          (fun _ => { startFails := false, state := .exited 1 })).client = [] ++ [ev] ∧
      execOf ev = some { Command := TrimSpace combinedExecutor.config.Command, StdOut := "",
                         LineOffset := 0, StdErr := "", ExitCode := 1 } :=
  have h := started_run_publishes_exit_status combinedExecutor [] ⟨0⟩
    (fun _ => { startFails := false, state := .exited 1 }) rfl
  ⟨rfl, h.2.2.2.1 1 rfl rfl, h.2.1, h.2.2.2.2.2 rfl rfl rfl rfl rfl⟩

/-- C8 fails as stated: with the argument string `" a"` the command runs with
the single argument `"a"`, whereas the argument string split at every space is
`["", "a"]`. -/
theorem arguments_not_raw_split :
    (runOneTime { config := { Command := "echo", Args := " a" } } [] ⟨0⟩
        (fun _ => { startFails := false })).cmd.Args = ["a"] ∧
    Split " a" ' ' = ["", "a"] ∧
    (runOneTime { config := { Command := "echo", Args := " a" } } [] ⟨0⟩
        (fun _ => { startFails := false })).cmd.Args ≠ Split " a" ' ' := by
  decide

/-- C8, amended: `runOneTime` runs the command string trimmed of leading and
trailing white space; its argument list is the argument string, trimmed of
leading and trailing white space as well, split at every single space, and it
is empty when the trimmed argument string is empty. The arguments joined by
single spaces give the trimmed argument string back and none of them contains
a space, so that inner consecutive spaces yield empty arguments: `"a  b"`
gives `"a"`, `""`, `"b"`. -/
theorem command_and_arguments (e : Executor) (c : Client) (now : Time) (sys : Cmd → Process) :
    (runOneTime e c now sys).cmd =
      Command (TrimSpace e.config.Command)
        (if TrimSpace e.config.Args = "" then [] else Split (TrimSpace e.config.Args) ' ') ∧
    (TrimSpace e.config.Args ≠ "" →
      List.intercalate [' '] ((runOneTime e c now sys).cmd.Args.map String.data) =
        (TrimSpace e.config.Args).data) ∧
    (∀ a ∈ (runOneTime e c now sys).cmd.Args, ' ' ∉ a.data) ∧
    (e.config.Args = "a  b" → (runOneTime e c now sys).cmd.Args = ["a", "", "b"]) := by
  have hcmd : (runOneTime e c now sys).cmd =
      Command (TrimSpace e.config.Command)
        (if TrimSpace e.config.Args = "" then [] else Split (TrimSpace e.config.Args) ' ') := by
    simp only [runOneTime]
    by_cases ha : TrimSpace e.config.Args = ""
    · have h0 : ¬ (len "" > 0) := by decide
      simp [ha, h0]
    · have h1 : len (TrimSpace e.config.Args) > 0 := (len_pos_iff _).2 ha
      have h2 : (Split (TrimSpace e.config.Args) ' ').length > 0 :=
        List.length_pos.2 (Split_ne_nil _ _)
      simp [ha, h1, h2]
  refine ⟨hcmd, ?_, ?_, ?_⟩
  · intro ha
    rw [hcmd]
    simp only [Command, ha, if_false, Split, List.map_map]
    have : (String.data ∘ String.mk) = (id : List Char → List Char) := by
      funext l
      rfl
    rw [this, List.map_id]
    exact splitChars_intercalate ' ' _
  · intro a hmem
    rw [hcmd] at hmem
    by_cases ha : TrimSpace e.config.Args = ""
    · simp [Command, ha] at hmem
    · simp only [Command, ha, if_false, Split, List.mem_map] at hmem
      obtain ⟨seg, hseg, rfl⟩ := hmem
      exact splitChars_no_sep ' ' _ seg hseg
  · intro ha
    rw [hcmd, ha]
    show (if TrimSpace "a  b" = "" then [] else Split (TrimSpace "a  b") ' ') = ["a", "", "b"]
    decide

/-- C9 fails as stated: in split mode, with stderr `"warn"` and stdout
`"a\nb\n"`, all three published events hold the command name `"echo"`, and the
JSON object of each has the member `command`. -/
theorem later_records_carry_command :
    (publishOutput splitExecutor [] "echo" 0 ⟨0⟩ "a\nb\n" "warn").map execOf =
      [some { Command := "echo", StdOut := "", LineOffset := 0, StdErr := "warn", ExitCode := 0 },
       some { Command := "echo", StdOut := "a", LineOffset := 0, StdErr := "", ExitCode := 0 },
       some { Command := "echo", StdOut := "b", LineOffset := 1, StdErr := "", ExitCode := 0 }] ∧
    ((publishOutput splitExecutor [] "echo" 0 ⟨0⟩ "a\nb\n" "warn").filterMap execOf).map
        (fun x => x.json.lookup "command") =
      [some (.str "echo"), some (.str "echo"), some (.str "echo")] ∧
    ¬ (∀ x ∈ ((publishOutput splitExecutor [] "echo" 0 ⟨0⟩ "a\nb\n" "warn").filterMap execOf).tail,
        x.Command = "") := by
  decide

/-- C9, amended: in split mode every event published for a run, the stderr
event and every stdout-line event alike, holds the command name passed to
`publishOutput`; its JSON object has the member `command` unless that name is
empty. -/
theorem split_mode_every_record_has_command (e : Executor) (c : Client) (cmdName : String)
    (exitCode : Int) (now : Time) (stdout stderr : String)
    (hsplit : e.config.SplitLines = true) :
    ∃ evs : List MapStr,
      publishOutput e c cmdName exitCode now stdout stderr = c ++ evs ∧
      ∀ ev ∈ evs, ∃ x : Exec, execOf ev = some x ∧ x.Command = cmdName ∧
        x.json.lookup "command" = if cmdName = "" then none else some (.str cmdName) := by
  refine ⟨_, publishOutput_split e c cmdName exitCode now stdout stderr hsplit, ?_⟩
  have key : ∀ h : ExecEvent, h.Exec.Command = cmdName →
      ∃ x : Exec, execOf h.ToMapStr = some x ∧ x.Command = cmdName ∧
        x.json.lookup "command" = if cmdName = "" then none else some (.str cmdName) := by
    intro h hc
    refine ⟨h.Exec, execOf_ToMapStr h, hc, ?_⟩
    rw [Exec.json, hc]
    by_cases hn : cmdName = ""
    · simp only [hn, if_true, List.nil_append]
      by_cases he : h.Exec.StdErr = ""
      · simp only [he, if_true]
        rfl
      · simp only [he, if_false]
        rfl
    · simp only [hn, if_false]
      simp [List.lookup]
  intro ev hev
  rw [List.mem_append] at hev
  rcases hev with hev | hev
  · by_cases hs : stderr = ""
    · simp [hs] at hev
    · simp only [hs, if_false, List.mem_singleton] at hev
      subst hev
      exact key _ rfl
  · simp only [List.mem_map] at hev
    obtain ⟨p, _, rfl⟩ := hev
    exact key _ rfl

/-- C9 amended, at a concrete run with a stderr text and two stdout lines. -/
theorem split_mode_every_record_has_command_witness :
    splitExecutor.config.SplitLines = true ∧
    ∃ evs : List MapStr,
      publishOutput splitExecutor [] "echo" 0 ⟨0⟩ "a\nb\n" "warn" = [] ++ evs ∧
      ∀ ev ∈ evs, ∃ x : Exec, execOf ev = some x ∧ x.Command = "echo" ∧
        x.json.lookup "command" = if "echo" = "" then none else some (.str "echo") :=
  ⟨by decide,
    split_mode_every_record_has_command splitExecutor [] "echo" 0 ⟨0⟩ "a\nb\n" "warn"
      (by decide)⟩

/-- C10 fails as stated: the JSON object of the combined-mode event has the
member `lineOffset` (with value 0), and the JSON object of the split-mode
stderr event has the members `stdout` (the empty string) and `lineOffset`
(0). -/
theorem stdout_and_lineOffset_always_written :
    ((publishOutput combinedExecutor [] "echo" 0 ⟨0⟩ "hi\n" "").filterMap execOf).map
        (fun x => x.json.lookup "lineOffset") = [some (.num 0)] ∧
    ((publishOutput splitExecutor [] "echo" 0 ⟨0⟩ "" "warn").filterMap execOf).map
        (fun x => (x.json.lookup "stdout", x.json.lookup "lineOffset")) =
      [(some (.str ""), some (.num 0))] ∧
    ¬ (∀ x ∈ (publishOutput combinedExecutor [] "echo" 0 ⟨0⟩ "hi\n" "").filterMap execOf,
        x.json.lookup "lineOffset" = none) ∧
    ¬ (∀ x ∈ (publishOutput splitExecutor [] "echo" 0 ⟨0⟩ "" "warn").filterMap execOf,
        x.json.lookup "stdout" = none ∧ x.json.lookup "lineOffset" = none) := by
  decide

/-- C10, amended: the JSON object of the `exec` of every published event, in
both modes, has the members `stdout` and `lineOffset`. In the combined-mode
event `stdout` is the whole stdout and `lineOffset` is 0; in the split-mode
stderr event `stdout` is the empty string and `lineOffset` is 0; a split-mode
stdout-line event holds its non-empty line. -/
theorem exec_always_has_stdout_and_lineOffset :
    (∀ x : Exec, x.json.lookup "stdout" = some (.str x.StdOut) ∧
      x.json.lookup "lineOffset" = some (.num x.LineOffset)) ∧
    (∀ (e : Executor) (cmdName : String) (exitCode : Int) (now : Time) (stdout stderr : String),
      (combinedEvent e cmdName exitCode now stdout stderr).Exec.StdOut = stdout ∧
      (combinedEvent e cmdName exitCode now stdout stderr).Exec.LineOffset = 0 ∧
      (stderrEvent e cmdName exitCode now stderr).Exec.StdOut = "" ∧
      (stderrEvent e cmdName exitCode now stderr).Exec.LineOffset = 0) ∧
    (∀ (e : Executor) (c : Client) (cmdName : String) (exitCode : Int) (now : Time)
        (stdout stderr : String),
      ∃ evs : List MapStr,
        publishOutput e c cmdName exitCode now stdout stderr = c ++ evs ∧
        ∀ ev ∈ evs, ∃ x : Exec, execOf ev = some x ∧
          x.json.lookup "stdout" = some (.str x.StdOut) ∧
          x.json.lookup "lineOffset" = some (.num x.LineOffset) ∧
          (e.config.SplitLines = false → x.StdOut = stdout ∧ x.LineOffset = 0) ∧
          (e.config.SplitLines = true → x.StdErr ≠ "" → x.StdOut = "" ∧ x.LineOffset = 0) ∧
          (e.config.SplitLines = true → x.StdErr = "" → x.StdOut ≠ "")) := by
  have hjson : ∀ x : Exec, x.json.lookup "stdout" = some (.str x.StdOut) ∧
      x.json.lookup "lineOffset" = some (.num x.LineOffset) := by
    intro x
    rw [Exec.json]
    by_cases hn : x.Command = ""
    · simp only [hn, if_true, List.nil_append]
      constructor <;> rfl
    · simp only [hn, if_false]
      constructor <;> rfl
  refine ⟨hjson, fun e cmdName exitCode now stdout stderr => ⟨rfl, rfl, rfl, rfl⟩, ?_⟩
  intro e c cmdName exitCode now stdout stderr
  cases hsplit : e.config.SplitLines with
  | false =>
    refine ⟨_, publishOutput_combined e c cmdName exitCode now stdout stderr hsplit, ?_⟩
    intro ev hev
    rw [List.mem_singleton] at hev
    subst hev
    refine ⟨_, execOf_ToMapStr _, (hjson _).1, (hjson _).2, fun _ => ⟨rfl, rfl⟩, ?_, ?_⟩
    · intro h
      cases h
    · intro h
      cases h
  | true =>
    refine ⟨_, publishOutput_split e c cmdName exitCode now stdout stderr hsplit, ?_⟩
    intro ev hev
    rw [List.mem_append] at hev
    rcases hev with hev | hev
    · by_cases hs : stderr = ""
      · simp [hs] at hev
      · simp only [hs, if_false, List.mem_singleton] at hev
        subst hev
        refine ⟨_, execOf_ToMapStr _, (hjson _).1, (hjson _).2, ?_, fun _ _ => ⟨rfl, rfl⟩, ?_⟩
        · intro h
          cases h
        · intro _ h
          exact absurd h hs
    · simp only [List.mem_map] at hev
      obtain ⟨p, hp, rfl⟩ := hev
      have hp2 : p.2 ≠ "" := by
        have := List.mem_filter.1 (List.snd_mem_of_mem_enumFrom hp)
        simpa using this.2
      refine ⟨_, execOf_ToMapStr _, (hjson _).1, (hjson _).2, ?_, ?_, fun _ _ => hp2⟩
      · intro h
        cases h
      · intro _ h
        exact absurd rfl h

end beat
